import Mathlib

/-!
Shallow embedding of src/flutter_app/native/src/whisper_bridge.cpp.

The bridge wraps an opaque whisper.cpp engine.  The engine itself is an
external collaborator; every inference call is modelled by an
EngineResponse oracle value (return code, segment texts, detected
language id, measured duration) that the embedded operation consumes
exactly where the C++ code calls whisper_full / whisper_full_n_segments /
whisper_full_get_segment_text / whisper_full_lang_id.

Audio samples are modelled as rationals: every int16 value divided by
32768 = 2 ^ 15 is exactly representable in binary float32 (the mantissa
holds 24 bits and |v| ≤ 2 ^ 15), so the float arithmetic the code performs
on these values is exact and ℚ is a faithful model of it.

Each operation returns, besides its status and the successor state, the
list of callback invocations (the segment texts handed to the stored
callback, in invocation order) and the list of inference calls issued to
the engine (full parameter struct plus the exact audio window), so that
the claims about "exactly one inference pass over the entire accumulator"
and "callback fired once per segment, in order" are statements about
these traces.
-/

set_option autoImplicit false

namespace WhisperBridge

/-- EngineResponse models the outcome of one whisper_full call: the return
code, the segment texts the engine then reports (a segment text is an
Option since whisper_full_get_segment_text may return null), the detected
language id, and the wall-clock duration the bridge measures around the
call. -/
structure EngineResponse where
  ret : Int
  segments : List (Option String)
  langId : Int
  durationMs : Int
  deriving Repr, DecidableEq

/-- FullParams mirrors the fields of whisper_full_params that make_params
sets.  The C char pointer for language is an Option: none models the null
pointer used for auto-detection. -/
structure FullParams where
  nThreads : Int
  noContext : Bool
  singleSegment : Bool
  printSpecial : Bool
  printProgress : Bool
  printRealtime : Bool
  printTimestamps : Bool
  translate : Bool
  noTimestamps : Bool
  language : Option String
  detectLanguage : Bool
  bestOf : Int
  deriving Repr, DecidableEq

/-- BridgeState mirrors whisper_bridge_context.  The engine handle, mutex
and raw pointers are not part of the functional state: the callback and
user-data pointers are modelled by the single presence flag has_callback
(the code stores and clears them together, and only ever tests the
callback for null).  last_result_text is the per-session reusable text
buffer. -/
structure BridgeState where
  language : String
  n_threads : Int
  streaming : Bool
  stream_buffer : List ℚ
  has_callback : Bool
  stream_step_samples : Int
  last_result_text : String
  deriving Repr, DecidableEq

/-- BridgeResult mirrors whisper_bridge_result; text aliases the session
buffer, modelled here by the result text being equal to the session's
last_result_text after the call. -/
structure BridgeResult where
  text : String
  segments : Nat
  lang_id : Int
  lang_prob : ℚ
  duration_ms : Int
  deriving Repr, DecidableEq

/-- InferCall records one whisper_full invocation: the parameters passed
and the exact audio window given to the engine. -/
structure InferCall where
  params : FullParams
  audio : List ℚ
  deriving Repr, DecidableEq

/-- initState is the state the whisper_bridge_context constructor
establishes: language "auto", 4 threads, not streaming, empty buffer, no
callback, step of 16000 * 2 = 32000 samples, empty result text. -/
def initState : BridgeState :=
  { language := "auto"
    n_threads := 4
    streaming := false
    stream_buffer := []
    has_callback := false
    stream_step_samples := 16000 * 2
    last_result_text := "" }

/-- make_params builds the whisper_full_params exactly as the C++ helper
does: greedy sampling with best_of 1, no context, timestamps off, and the
language either null + detect_language (when the session language is
"auto") or the stored code. -/
def make_params (ctx : BridgeState) : FullParams :=
  { nThreads := ctx.n_threads
    noContext := true
    singleSegment := false
    printSpecial := false
    printProgress := false
    printRealtime := false
    printTimestamps := false
    translate := false
    noTimestamps := true
    language := if ctx.language = "auto" then none else some ctx.language
    detectLanguage := ctx.language = "auto"
    bestOf := 1 }

/-- joinStep is the loop body of make_result: a null segment text is
skipped; a non-null text is appended, preceded by one space when the
accumulated text so far is non-empty. -/
def joinStep (acc : String) (s : Option String) : String :=
  match s with
  | none => acc
  | some t => (if acc.isEmpty then acc else acc ++ " ") ++ t

/-- joinSegments folds joinStep over the segment texts starting from the
cleared last_result_text, exactly as the loop in make_result does. -/
def joinSegments (segs : List (Option String)) : String :=
  segs.foldl joinStep ""

/-- make_result mirrors the C++ helper: it clears and rewrites the
session's last_result_text with the joined segment texts and returns the
result record whose text field aliases that buffer. -/
def make_result (ctx : BridgeState) (segTexts : List (Option String))
    (lang_id : Int) (lang_prob : ℚ) (duration_ms : Int) :
    BridgeResult × BridgeState :=
  let text := joinSegments segTexts
  (⟨text, segTexts.length, lang_id, lang_prob, duration_ms⟩,
   { ctx with last_result_text := text })

/-- emptyResult is the sentinel { "", 0, -1, 0.0f, 0 } used on every
failure path. -/
def emptyResult : BridgeResult := ⟨"", 0, -1, 0, 0⟩

/-- whisper_bridge_init: a null model path (none) fails; otherwise the
engine collaborator (engineLoad, modelling
whisper_init_from_file_with_params with use_gpu = true) is asked to load;
on null the call fails with no session produced; on success a fresh
context with the handle is returned. -/
def whisper_bridge_init (engineLoad : String → Option Nat)
    (model_path : Option String) : Option (Nat × BridgeState) :=
  match model_path with
  | none => none
  | some p =>
    match engineLoad p with
    | none => none
    | some h => some (h, initState)

/-- whisper_bridge_set_language: "auto" always succeeds; any other code
is validated through whisper_lang_id (modelled by the langId table,
negative meaning unknown); unknown codes fail with -1 leaving the state
untouched. -/
def whisper_bridge_set_language (langId : String → Int)
    (ctx : BridgeState) (lang : String) : Int × BridgeState :=
  if lang = "auto" then (0, { ctx with language := "auto" })
  else if langId lang < 0 then (-1, ctx)
  else (0, { ctx with language := lang })

/-- whisper_bridge_set_threads clamps non-positive values to 4. -/
def whisper_bridge_set_threads (ctx : BridgeState) (n : Int) : BridgeState :=
  { ctx with n_threads := if n > 0 then n else 4 }

/-- callbackEvents models the per-segment delivery loop: for each segment
text in order, the callback is invoked when the text is non-null and the
stored callback is non-null. -/
def callbackEvents (hasCb : Bool) (segs : List (Option String)) :
    List String :=
  segs.filterMap (fun t =>
    match t with
    | none => none
    | some s => if hasCb then some s else none)

/-- whisper_bridge_stream_start: fails with -1 when the callback is null;
otherwise sets streaming, stores the callback/context and clears the
accumulator. -/
def whisper_bridge_stream_start (ctx : BridgeState) (callback : Bool) :
    Int × BridgeState :=
  if !callback then (-1, ctx)
  else (0, { ctx with streaming := true, has_callback := true,
                      stream_buffer := [] })

/-- whisper_bridge_stream_push: a null (none) or empty buffer fails with
-1; a push while not streaming fails with -1; otherwise the samples are
appended and, when the buffer has reached stream_step_samples, one
inference pass runs over the whole buffer in single-segment mode, the
callback fires per produced non-null segment text, and the buffer is
truncated to its trailing 8000 samples.  Returns (status, state, callback
events, inference calls). -/
def whisper_bridge_stream_push (ctx : BridgeState)
    (audio : Option (List ℚ)) (resp : EngineResponse) :
    Int × BridgeState × List String × List InferCall :=
  match audio with
  | none => (-1, ctx, [], [])
  | some data =>
    if data.length = 0 then (-1, ctx, [], [])
    else if !ctx.streaming then (-1, ctx, [], [])
    else
      let ctx1 := { ctx with stream_buffer := ctx.stream_buffer ++ data }
      if (ctx1.stream_buffer.length : Int) ≥ ctx1.stream_step_samples then
        let params := { make_params ctx1 with singleSegment := true }
        let call : InferCall := ⟨params, ctx1.stream_buffer⟩
        let events :=
          if resp.ret = 0 then callbackEvents ctx1.has_callback resp.segments
          else []
        let keep : Nat := 8000
        let ctx2 :=
          if ctx1.stream_buffer.length > keep then
            { ctx1 with stream_buffer :=
                ctx1.stream_buffer.drop (ctx1.stream_buffer.length - keep) }
          else ctx1
        (0, ctx2, events, [call])
      else (0, ctx1, [], [])

/-- whisper_bridge_stream_stop: sets streaming false unconditionally.  A
non-empty buffer gets one final inference pass (multi-segment params); on
success the callback fires per segment, the buffer/callback are cleared
and make_result assembles the final record; on failure, or when the
buffer was already empty, the buffer/callback are still cleared and the
empty sentinel is returned. -/
def whisper_bridge_stream_stop (ctx : BridgeState) (resp : EngineResponse) :
    BridgeResult × BridgeState × List String × List InferCall :=
  let ctx0 := { ctx with streaming := false }
  if ctx0.stream_buffer.length ≠ 0 then
    let params := make_params ctx0
    let call : InferCall := ⟨params, ctx0.stream_buffer⟩
    if resp.ret = 0 then
      let events := callbackEvents ctx0.has_callback resp.segments
      let ctx1 := { ctx0 with stream_buffer := [], has_callback := false }
      let mr := make_result ctx1 resp.segments resp.langId 0 resp.durationMs
      (mr.1, mr.2, events, [call])
    else
      (emptyResult,
       { ctx0 with stream_buffer := [], has_callback := false }, [], [call])
  else
    (emptyResult,
     { ctx0 with stream_buffer := [], has_callback := false }, [], [])

/-- whisper_bridge_transcribe: the batch path; null or empty input or a
failing engine yield the empty sentinel, success yields the joined text
via make_result with lang_prob fixed at 0. -/
def whisper_bridge_transcribe (ctx : BridgeState)
    (audio : Option (List ℚ)) (resp : EngineResponse) :
    BridgeResult × BridgeState × List InferCall :=
  match audio with
  | none => (emptyResult, ctx, [])
  | some data =>
    if data.length = 0 then (emptyResult, ctx, [])
    else
      let call : InferCall := ⟨make_params ctx, data⟩
      if resp.ret = 0 then
        let mr := make_result ctx resp.segments resp.langId 0 resp.durationMs
        (mr.1, mr.2, [call])
      else (emptyResult, ctx, [call])

/-- whisper_bridge_pcm16_to_f32 converts an int16 block element-wise by
dividing by 32768; the division is exact in float32 for every int16
value, so the rational map is the code's behaviour. -/
def whisper_bridge_pcm16_to_f32 (src : List ℤ) : List ℚ :=
  src.map (fun (v : ℤ) => (v : ℚ) / 32768)

/-- StreamOp enumerates the streaming operations a caller can issue, each
carrying the oracle data the operation consumes. -/
inductive StreamOp where
  | start (callback : Bool)
  | push (audio : Option (List ℚ)) (resp : EngineResponse)
  | stop (resp : EngineResponse)

/-- stepOp runs one streaming operation for its state effect. -/
def stepOp (ctx : BridgeState) (op : StreamOp) : BridgeState :=
  match op with
  | .start cb => (whisper_bridge_stream_start ctx cb).2
  | .push a r => (whisper_bridge_stream_push ctx a r).2.1
  | .stop r => (whisper_bridge_stream_stop ctx r).2.1

/-- execOps is the state reached from a fresh session after a sequence of
streaming operations. -/
def execOps (ops : List StreamOp) : BridgeState :=
  ops.foldl stepOp initState

/-- runPushes folds a sequence of pushes (all served by the same engine
oracle), collecting the final state, every callback event and the total
number of inference calls. -/
def runPushes (ctx : BridgeState) (chunks : List (List ℚ))
    (resp : EngineResponse) : BridgeState × List String × Nat :=
  match chunks with
  | [] => (ctx, [], 0)
  | c :: cs =>
    let out := whisper_bridge_stream_push ctx (some c) resp
    let rest := runPushes out.2.1 cs resp
    (rest.1, out.2.2.1 ++ rest.2.1, out.2.2.2.length + rest.2.2)

/-- specJoinSpace is the join the specification describes for result
text: the texts separated by exactly one space character each.  It is
written from the spec's words, to be compared with joinSegments, which is
written from the code. -/
def specJoinSpace : List String → String
  | [] => ""
  | [t] => t
  | t :: ts => t ++ " " ++ specJoinSpace ts

/-! Helper lemmas shared by the claim theorems. -/

/-- lemma: a push with a null or empty buffer, or on a non-streaming
session, returns -1 and changes nothing. -/
lemma stream_push_err (ctx : BridgeState) (audio : Option (List ℚ))
    (resp : EngineResponse)
    (h : ctx.streaming = false ∨ audio = none ∨ audio = some []) :
    whisper_bridge_stream_push ctx audio resp = (-1, ctx, [], []) := by
  rcases h with h | h | h
  · cases audio with
    | none => rfl
    | some data =>
      by_cases hd : data.length = 0
      · simp [whisper_bridge_stream_push, hd]
      · simp [whisper_bridge_stream_push, hd, h]
  · subst h; rfl
  · subst h; simp [whisper_bridge_stream_push]

/-- lemma: a push on a streaming session that stays strictly below the
step threshold only appends. -/
lemma stream_push_below (ctx : BridgeState) (data : List ℚ)
    (resp : EngineResponse)
    (hs : ctx.streaming = true) (hstep : ctx.stream_step_samples = 32000)
    (hd : data ≠ [])
    (hlt : ctx.stream_buffer.length + data.length < 32000) :
    whisper_bridge_stream_push ctx (some data) resp =
      (0, { ctx with stream_buffer := ctx.stream_buffer ++ data }, [], []) := by
  have hd0 : ¬ data.length = 0 := by
    simpa [List.length_eq_zero] using hd
  have hcond :
      ¬ (((ctx.stream_buffer ++ data).length : Int) ≥ 32000) := by
    rw [List.length_append]
    omega
  simp [whisper_bridge_stream_push, hd0, hs, hstep, hcond]
  all_goals omega

/-- lemma: a push on a streaming session that reaches the step threshold
runs exactly one single-segment inference pass over the whole
accumulator, fires the callback for the non-null segment texts when the
pass succeeds, and truncates the accumulator to its trailing 8000
samples. -/
lemma stream_push_flush (ctx : BridgeState) (data : List ℚ)
    (resp : EngineResponse)
    (hs : ctx.streaming = true) (hstep : ctx.stream_step_samples = 32000)
    (hd : data ≠ [])
    (hcross : 32000 ≤ ctx.stream_buffer.length + data.length) :
    whisper_bridge_stream_push ctx (some data) resp =
      (0,
       { ctx with stream_buffer := (ctx.stream_buffer ++ data).drop (ctx.stream_buffer.length + data.length - 8000) },
       (if resp.ret = 0 then callbackEvents ctx.has_callback resp.segments
        else []),
       [⟨{ make_params ctx with singleSegment := true },
         ctx.stream_buffer ++ data⟩]) := by
  have hd0 : ¬ data.length = 0 := by
    simpa [List.length_eq_zero] using hd
  have hcond :
      (((ctx.stream_buffer ++ data).length : Int) ≥ 32000) := by
    rw [List.length_append]
    omega
  have htrunc : (ctx.stream_buffer ++ data).length > 8000 := by
    rw [List.length_append]
    omega
  simp [whisper_bridge_stream_push, hd0, hs, hstep, hcond, htrunc,
    make_params, List.length_append]
  all_goals simp_all [List.length_append]

/-- lemma: with a stored callback, the delivery loop fires exactly the
non-null segment texts in order. -/
lemma callbackEvents_true (segs : List (Option String)) :
    callbackEvents true segs = segs.filterMap id := by
  induction segs with
  | nil => rfl
  | cons s rest ih =>
    cases s with
    | none => simpa [callbackEvents] using ih
    | some t => simpa [callbackEvents] using ih

/-- lemma: a list of options that are all some has as many non-null
entries as entries. -/
lemma filterMap_id_length_of_isSome (segs : List (Option String))
    (h : ∀ s ∈ segs, s.isSome = true) :
    (segs.filterMap id).length = segs.length := by
  have main : ∀ l : List (Option String), (∀ s ∈ l, s.isSome = true) →
      (l.filterMap id).length = l.length := by
    intro l
    induction l with
    | nil => intro _; rfl
    | cons s rest ih =>
      intro hl
      cases s with
      | none => exact absurd (hl none (by simp)) (by simp)
      | some t =>
        have hrec := ih (fun x hx => hl x (by simp [hx]))
        simp [List.filterMap_cons, hrec]
  exact main segs h

/-- lemma: stop always leaves the session not streaming, with an empty
accumulator and no stored callback. -/
lemma stream_stop_clears (ctx : BridgeState) (resp : EngineResponse) :
    (whisper_bridge_stream_stop ctx resp).2.1.streaming = false ∧
    (whisper_bridge_stream_stop ctx resp).2.1.stream_buffer = [] ∧
    (whisper_bridge_stream_stop ctx resp).2.1.has_callback = false := by
  simp only [whisper_bridge_stream_stop]
  split
  · split
    · simp [make_result]
    · simp
  · simp

/-- lemma: stop on an empty accumulator, or with a failing final pass,
returns the empty sentinel, clears everything, and fires no callback. -/
lemma stream_stop_fail (ctx : BridgeState) (resp : EngineResponse)
    (h : ctx.stream_buffer = [] ∨ resp.ret ≠ 0) :
    (whisper_bridge_stream_stop ctx resp).1 = emptyResult ∧
    (whisper_bridge_stream_stop ctx resp).2.1 =
      { ctx with streaming := false, stream_buffer := [],
                 has_callback := false } ∧
    (whisper_bridge_stream_stop ctx resp).2.2.1 = [] := by
  rcases h with h | h
  · simp [whisper_bridge_stream_stop, h]
  · by_cases hb : ctx.stream_buffer.length = 0
    · have hb' : ctx.stream_buffer = [] := List.length_eq_zero.mp hb
      simp [whisper_bridge_stream_stop, hb']
    · simp [whisper_bridge_stream_stop, hb, h]

/-- lemma: the make_result fold skips null texts, so it equals the same
fold over the present texts only. -/
lemma foldl_joinStep_filterMap (segs : List (Option String)) (acc : String) :
    segs.foldl joinStep acc =
      (segs.filterMap id).foldl
        (fun a t => (if a.isEmpty then a else a ++ " ") ++ t) acc := by
  induction segs generalizing acc with
  | nil => rfl
  | cons s rest ih =>
    cases s with
    | none => simpa [joinStep] using ih acc
    | some t => simpa [joinStep, List.filterMap_cons] using ih _

/-- lemma: specJoinSpace splits off a head that is itself an append
ending in a separator. -/
lemma specJoinSpace_append_head (a t : String) (l : List String) :
    specJoinSpace ((a ++ " " ++ t) :: l) = a ++ " " ++ specJoinSpace (t :: l) := by
  cases l with
  | nil => rfl
  | cons u l0 => simp [specJoinSpace, String.append_assoc]

/-- lemma: starting from a non-empty accumulator, the space-separating
fold computes specJoinSpace of the accumulator followed by the list. -/
lemma foldl_stepS_spec (l : List String) (acc : String) (h : acc ≠ "") :
    l.foldl (fun a t => (if a.isEmpty then a else a ++ " ") ++ t) acc =
      specJoinSpace (acc :: l) := by
  induction l generalizing acc with
  | nil => rfl
  | cons t rest ih =>
    have hne : acc.isEmpty = false := by
      rw [Bool.eq_false_iff]
      simpa [String.isEmpty_iff] using h
    have h2 : (acc ++ " " ++ t) ≠ "" := by
      intro hcontra
      have hlen : (acc ++ " " ++ t).length = ("" : String).length :=
        congrArg String.length hcontra
      rw [String.length_append, String.length_append] at hlen
      have hsp : (" " : String).length = 1 := by decide
      have hemp : ("" : String).length = 0 := by decide
      omega
    simp only [List.foldl_cons, hne, Bool.false_eq_true, if_false]
    rw [ih (acc ++ " " ++ t) h2, specJoinSpace_append_head]
    rfl

/-- lemma: whenever the first non-null segment text is non-empty, the
make_result join is exactly the texts separated by single spaces. -/
lemma joinSegments_spec (segs : List (Option String))
    (h : (segs.filterMap id).head? ≠ some "") :
    joinSegments segs = specJoinSpace (segs.filterMap id) := by
  rw [joinSegments, foldl_joinStep_filterMap]
  cases hl : segs.filterMap id with
  | nil => rfl
  | cons t l =>
    rw [hl] at h
    have ht : t ≠ "" := by simpa using h
    have he : ("" : String).isEmpty = true := by decide
    have hfold :
        List.foldl (fun a t => (if a.isEmpty then a else a ++ " ") ++ t) "" (t :: l) =
          List.foldl (fun a t => (if a.isEmpty then a else a ++ " ") ++ t) t l := by
      simp [he]
    rw [hfold, foldl_stepS_spec l t ht]

/-- lemma: a sequence of non-empty pushes whose running total stays below
the threshold only concatenates onto the accumulator: no callback event,
no inference call. -/
lemma runPushes_below (chunks : List (List ℚ)) (ctx : BridgeState)
    (resp : EngineResponse)
    (hs : ctx.streaming = true) (hstep : ctx.stream_step_samples = 32000)
    (hne : ∀ c ∈ chunks, c ≠ [])
    (hsum : ctx.stream_buffer.length + (chunks.map List.length).sum < 32000) :
    runPushes ctx chunks resp =
      ({ ctx with stream_buffer := ctx.stream_buffer ++ chunks.flatten }, [], 0) := by
  induction chunks generalizing ctx with
  | nil => simp [runPushes]
  | cons c cs ih =>
    have hc : c ≠ [] := hne c (by simp)
    have hlt : ctx.stream_buffer.length + c.length < 32000 := by
      simp only [List.map_cons, List.sum_cons] at hsum
      omega
    have hrec := ih { ctx with stream_buffer := ctx.stream_buffer ++ c }
      (by simp [hs]) (by simp [hstep])
      (fun d hd => hne d (by simp [hd]))
      (by simp only [List.map_cons, List.sum_cons] at hsum
          simp [List.length_append]
          omega)
    rw [runPushes, stream_push_below ctx c resp hs hstep hc hlt]
    simp only [hrec]
    simp [List.append_assoc]

/-- bufInv is the reachable-state invariant: the accumulator is strictly
below the step threshold and the step is the constructor's 32000. -/
def bufInv (ctx : BridgeState) : Prop :=
  ctx.stream_buffer.length < 32000 ∧ ctx.stream_step_samples = 32000

/-- lemma: stop leaves every configuration field except the streaming
state, buffer and callback untouched. -/
lemma stream_stop_step_samples (ctx : BridgeState) (resp : EngineResponse) :
    (whisper_bridge_stream_stop ctx resp).2.1.stream_step_samples =
      ctx.stream_step_samples := by
  simp only [whisper_bridge_stream_stop]
  split
  · split
    · simp [make_result]
    · simp
  · simp

/-- lemma: projecting the successor state out of a push tuple equation;
stated over free variables so that instantiation never forces kernel
reduction of the large component terms. -/
lemma push_state_eq (ctx : BridgeState) (a : Option (List ℚ))
    (r : EngineResponse) (s : Int) (st : BridgeState) (ev : List String)
    (cs : List InferCall)
    (h : whisper_bridge_stream_push ctx a r = (s, st, ev, cs)) :
    (whisper_bridge_stream_push ctx a r).2.1 = st := by
  rw [h]

/-- lemma: a stream_buffer update leaves the buffer with the new value. -/
lemma upd_buf_buffer (c : BridgeState) (X : List ℚ) :
    ({ c with stream_buffer := X }).stream_buffer = X := rfl

/-- lemma: a stream_buffer update does not change stream_step_samples. -/
lemma upd_buf_step (c : BridgeState) (X : List ℚ) :
    ({ c with stream_buffer := X }).stream_step_samples =
      c.stream_step_samples := rfl

/-- lemma: a stream_buffer update does not change streaming. -/
lemma upd_buf_streaming (c : BridgeState) (X : List ℚ) :
    ({ c with stream_buffer := X }).streaming = c.streaming := rfl

/-- lemma: a stream_buffer update does not change has_callback. -/
lemma upd_buf_callback (c : BridgeState) (X : List ℚ) :
    ({ c with stream_buffer := X }).has_callback = c.has_callback := rfl

/-- lemma: every streaming operation preserves the buffer invariant. -/
lemma stepOp_inv (ctx : BridgeState) (op : StreamOp) (h : bufInv ctx) :
    bufInv (stepOp ctx op) := by
  obtain ⟨hlen, hstep⟩ := h
  cases op with
  | start cb =>
    by_cases hcb : cb = true
    · simp [stepOp, whisper_bridge_stream_start, hcb, bufInv, hstep]
    · simp only [Bool.not_eq_true] at hcb
      simp [stepOp, whisper_bridge_stream_start, hcb, bufInv, hstep, hlen]
  | push a r =>
    cases a with
    | none =>
      rw [stepOp, stream_push_err ctx none r (Or.inr (Or.inl rfl))]
      exact ⟨hlen, hstep⟩
    | some data =>
      by_cases hd : data = []
      · rw [stepOp, stream_push_err ctx (some data) r (Or.inr (Or.inr (by rw [hd])))]
        exact ⟨hlen, hstep⟩
      · by_cases hstrm : ctx.streaming = true
        · by_cases hcross : 32000 ≤ ctx.stream_buffer.length + data.length
          · have hstate :=
              push_state_eq ctx (some data) r _ _ _ _
                (stream_push_flush ctx data r hstrm hstep hd hcross)
            have h8 :
                (whisper_bridge_stream_push ctx (some data) r).2.1.stream_buffer.length = 8000 := by
              rw [hstate, upd_buf_buffer]
              simp only [List.length_drop, List.length_append]
              omega
            have h9 :
                (whisper_bridge_stream_push ctx (some data) r).2.1.stream_step_samples = 32000 := by
              rw [hstate, upd_buf_step, hstep]
            exact ⟨by rw [stepOp, h8]; norm_num, by rw [stepOp]; exact h9⟩
          · rw [stepOp,
              stream_push_below ctx data r hstrm hstep hd (by omega)]
            refine ⟨?_, hstep⟩
            simp only [List.length_append]
            omega
        · have hfalse : ctx.streaming = false := by
            simpa [Bool.not_eq_true] using hstrm
          rw [stepOp, stream_push_err ctx (some data) r (Or.inl hfalse)]
          exact ⟨hlen, hstep⟩
  | stop r =>
    refine ⟨?_, ?_⟩
    · have hb := (stream_stop_clears ctx r).2.1
      simp [stepOp, hb]
    · simpa [stepOp, stream_stop_step_samples] using hstep

/-- lemma: every state reachable from a fresh session satisfies the
buffer invariant. -/
lemma execOps_inv (ops : List StreamOp) : bufInv (execOps ops) := by
  have main : ∀ (l : List StreamOp) (st : BridgeState),
      bufInv st → bufInv (l.foldl stepOp st) := by
    intro l
    induction l with
    | nil => intro st h; exact h
    | cons op rest ih => intro st h; exact ih _ (stepOp_inv st op h)
  refine main ops initState ⟨by simp [initState], by norm_num [initState]⟩

/-- lemma: projecting the callback-event trace out of a push tuple
equation. -/
lemma push_events_eq (ctx : BridgeState) (a : Option (List ℚ))
    (r : EngineResponse) (s : Int) (st : BridgeState) (ev : List String)
    (cs : List InferCall)
    (h : whisper_bridge_stream_push ctx a r = (s, st, ev, cs)) :
    (whisper_bridge_stream_push ctx a r).2.2.1 = ev := by
  rw [h]

/-- lemma: projecting the inference-call trace out of a push tuple
equation. -/
lemma push_calls_eq (ctx : BridgeState) (a : Option (List ℚ))
    (r : EngineResponse) (s : Int) (st : BridgeState) (ev : List String)
    (cs : List InferCall)
    (h : whisper_bridge_stream_push ctx a r = (s, st, ev, cs)) :
    (whisper_bridge_stream_push ctx a r).2.2.2 = cs := by
  rw [h]

/-- lemma: from any state whose buffer respects the invariant, a push
leaves the accumulator strictly below threshold-plus-push-length, and a
push that reaches the threshold from a streaming state leaves at most
8000 samples. -/
lemma push_post_bounds (st : BridgeState) (data : List ℚ)
    (resp : EngineResponse)
    (hlen : st.stream_buffer.length < 32000)
    (hstep : st.stream_step_samples = 32000) (hd : data ≠ []) :
    (whisper_bridge_stream_push st (some data) resp).2.1.stream_buffer.length <
      32000 + data.length ∧
    (st.streaming = true → 32000 ≤ st.stream_buffer.length + data.length →
      (whisper_bridge_stream_push st (some data) resp).2.1.stream_buffer.length ≤
        8000) := by
  by_cases hstrm : st.streaming = true
  · by_cases hcross : 32000 ≤ st.stream_buffer.length + data.length
    · have hstate := push_state_eq st (some data) resp _ _ _ _
        (stream_push_flush st data resp hstrm hstep hd hcross)
      have h8 :
          (whisper_bridge_stream_push st (some data) resp).2.1.stream_buffer.length = 8000 := by
        rw [hstate, upd_buf_buffer]
        simp only [List.length_drop, List.length_append]
        omega
      exact ⟨by rw [h8]; omega, fun _ _ => by rw [h8]⟩
    · have hstate := push_state_eq st (some data) resp _ _ _ _
        (stream_push_below st data resp hstrm hstep hd (by omega))
      refine ⟨?_, fun _ hc => absurd hc hcross⟩
      rw [hstate, upd_buf_buffer, List.length_append]
      omega
  · have hfalse : st.streaming = false := by
      simpa [Bool.not_eq_true] using hstrm
    have hstate := push_state_eq st (some data) resp _ _ _ _
      (stream_push_err st (some data) resp (Or.inl hfalse))
    refine ⟨by rw [hstate]; omega, fun htrue _ => absurd htrue hstrm⟩

/-! Claim theorems. -/

/-- C6: a push on a session that is not streaming fails with -1 (the
NotStreaming error) and leaves the state untouched; a push with a null or
empty sample buffer fails with -1 (the InvalidArgument error) and
performs no mutation — no append, no callback event, no inference
call. -/
theorem stream_push_rejects_invalid (ctx : BridgeState)
    (audio : Option (List ℚ)) (resp : EngineResponse)
    (h : ctx.streaming = false ∨ audio = none ∨ audio = some []) :
    whisper_bridge_stream_push ctx audio resp = (-1, ctx, [], []) :=
  stream_push_err ctx audio resp h

/-- C6 witness: a fresh session is not streaming, so a non-empty push is
rejected without mutation. -/
theorem stream_push_rejects_invalid_witness :
    (initState.streaming = false ∨ (some [(1 : ℚ)]) = none ∨
      (some [(1 : ℚ)]) = some ([] : List ℚ)) ∧
    whisper_bridge_stream_push initState (some [(1 : ℚ)]) ⟨0, [], -1, 0⟩ =
      (-1, initState, [], []) :=
  ⟨Or.inl rfl,
   stream_push_rejects_invalid initState (some [(1 : ℚ)]) ⟨0, [], -1, 0⟩
     (Or.inl rfl)⟩

/-- C4: setLanguage with "auto" always succeeds and switches the session
into detect-language mode (null language pointer, detect_language set);
any code other than "auto" that is unknown to the engine's language table
(negative whisper_lang_id) is rejected with -1 and the session state is
left exactly as it was. -/
theorem set_language_auto_and_unknown (langId : String → Int)
    (ctx : BridgeState) (lang : String)
    (hne : lang ≠ "auto") (hunk : langId lang < 0) :
    whisper_bridge_set_language langId ctx "auto" =
      (0, { ctx with language := "auto" }) ∧
    (make_params { ctx with language := "auto" }).detectLanguage = true ∧
    (make_params { ctx with language := "auto" }).language = none ∧
    whisper_bridge_set_language langId ctx lang = (-1, ctx) := by
  refine ⟨?_, ?_, ?_, ?_⟩
  · simp [whisper_bridge_set_language]
  · simp [make_params]
  · simp [make_params]
  · simp [whisper_bridge_set_language, hne, hunk]

/-- C4 witness: with a language table that knows no code, "auto" still
succeeds and "xx" is rejected leaving the fresh session unchanged. -/
theorem set_language_auto_and_unknown_witness :
    ("xx" ≠ "auto") ∧ ((fun _ : String => (-1 : Int)) "xx" < 0) ∧
    whisper_bridge_set_language (fun _ => -1) initState "auto" =
      (0, { initState with language := "auto" }) ∧
    whisper_bridge_set_language (fun _ => -1) initState "xx" =
      (-1, initState) :=
  ⟨by decide, by decide,
   (set_language_auto_and_unknown (fun _ => -1) initState "xx" (by decide)
     (by decide)).1,
   (set_language_auto_and_unknown (fun _ => -1) initState "xx" (by decide)
     (by decide)).2.2.2⟩

/-- C5: stop sets isStreaming to false unconditionally on every session;
and when the accumulator is empty, or the final inference pass fails, it
returns the empty sentinel result (empty text, zero segments, language id
-1, zero duration), still clears the accumulator and the stored
callback/context, and fires no callback. -/
theorem stream_stop_failure_empty (ctx : BridgeState) (resp : EngineResponse)
    (h : ctx.stream_buffer = [] ∨ resp.ret ≠ 0) :
    (∀ (c : BridgeState) (r : EngineResponse),
        (whisper_bridge_stream_stop c r).2.1.streaming = false) ∧
    (whisper_bridge_stream_stop ctx resp).1 = emptyResult ∧
    (whisper_bridge_stream_stop ctx resp).2.1 =
      { ctx with streaming := false, stream_buffer := [],
                 has_callback := false } ∧
    (whisper_bridge_stream_stop ctx resp).2.2.1 = [] :=
  ⟨fun c r => (stream_stop_clears c r).1,
   (stream_stop_fail ctx resp h).1,
   (stream_stop_fail ctx resp h).2.1,
   (stream_stop_fail ctx resp h).2.2⟩

/-- C5 witness: stop on a fresh session (empty accumulator) returns the
empty sentinel. -/
theorem stream_stop_failure_empty_witness :
    (initState.stream_buffer = [] ∨
      (⟨1, [], -1, 0⟩ : EngineResponse).ret ≠ 0) ∧
    (whisper_bridge_stream_stop initState ⟨1, [], -1, 0⟩).1 = emptyResult :=
  ⟨Or.inl rfl,
   (stream_stop_failure_empty initState ⟨1, [], -1, 0⟩ (Or.inl rfl)).2.1⟩

/-- C8: init fails when the model path is null, and fails when the engine
collaborator cannot load the given path; and every successful init
returns a complete fresh session holding the engine handle — no partial
session is ever produced. -/
theorem init_requires_path_and_engine (engineLoad : String → Option Nat)
    (p : String) (hload : engineLoad p = none) :
    whisper_bridge_init engineLoad none = none ∧
    whisper_bridge_init engineLoad (some p) = none ∧
    (∀ (q : String) (hh : Nat) (st : BridgeState),
        whisper_bridge_init engineLoad (some q) = some (hh, st) →
          engineLoad q = some hh ∧ st = initState) := by
  refine ⟨rfl, ?_, ?_⟩
  · simp [whisper_bridge_init, hload]
  · intro q hh st hsome
    cases hq : engineLoad q with
    | none => simp [whisper_bridge_init, hq] at hsome
    | some k =>
      simp [whisper_bridge_init, hq] at hsome
      obtain ⟨h1, h2⟩ := hsome
      subst h1
      exact ⟨rfl, h2.symm⟩

/-- C8 witness: an engine that can load nothing makes init fail on a
concrete path. -/
theorem init_requires_path_and_engine_witness :
    ((fun _ : String => (none : Option Nat)) "model.bin" = none) ∧
    whisper_bridge_init (fun _ => none) (some "model.bin") = none :=
  ⟨rfl, (init_requires_path_and_engine (fun _ => none) "model.bin" rfl).2.1⟩

/-- C9: the PCM conversion maps every int16 sample v to v / 32768
element-wise, exactly (the division of an int16 by 2 ^ 15 is exact in
binary float32, so the rational statement is the code's behaviour); in
particular 0 maps to 0 and -32768 maps to -1. -/
theorem pcm16_to_f32_exact (src : List ℤ)
    (hrange : ∀ v ∈ src, -32768 ≤ v ∧ v ≤ 32767) :
    (whisper_bridge_pcm16_to_f32 src).length = src.length ∧
    (∀ i : Nat, (whisper_bridge_pcm16_to_f32 src)[i]? =
        (src[i]?).map (fun (v : ℤ) => (v : ℚ) / 32768)) ∧
    whisper_bridge_pcm16_to_f32 [0] = [0] ∧
    whisper_bridge_pcm16_to_f32 [-32768] = [-1] := by
  refine ⟨by simp only [whisper_bridge_pcm16_to_f32, List.length_map], ?_, ?_, ?_⟩
  · intro i
    simp only [whisper_bridge_pcm16_to_f32, List.getElem?_map]
  · norm_num [whisper_bridge_pcm16_to_f32]
  · norm_num [whisper_bridge_pcm16_to_f32]

/-- C9 witness: the conversion evaluated on a concrete int16 block. -/
theorem pcm16_to_f32_exact_witness :
    (∀ v ∈ [(0 : ℤ), -32768, 32767], -32768 ≤ v ∧ v ≤ 32767) ∧
    whisper_bridge_pcm16_to_f32 [0] = [0] :=
  ⟨by decide,
   (pcm16_to_f32_exact [(0 : ℤ), -32768, 32767] (by decide)).2.2.1⟩

/-- C10 counterexample: on the segment texts [some "", some "x"] the code
produces "x", while joining the non-null texts separated by exactly one
space each would produce " x" — the separator is keyed on the accumulated
text being non-empty, not on a previous non-null segment existing. -/
theorem make_result_join_counterexample :
    (make_result initState [some "", some "x"] (-1) 0 0).1.text = "x" ∧
    specJoinSpace (([some "", some "x"] : List (Option String)).filterMap id) =
      " x" ∧
    (make_result initState [some "", some "x"] (-1) 0 0).1.text ≠
      specJoinSpace (([some "", some "x"] : List (Option String)).filterMap id) := by
  refine ⟨rfl, rfl, ?_⟩
  decide

/-- C10 (amended): the result text concatenates the non-null segment
texts in segment order, inserting one space before a text exactly when
the text accumulated so far is non-empty — so whenever the first non-null
segment text is itself non-empty, the texts are separated by exactly one
space each; the joined text is stored in the session's single reusable
last-result buffer, which is cleared and rewritten by each call, and the
result's segment count is the engine's segment count. -/
theorem make_result_join_amended (ctx : BridgeState)
    (segs : List (Option String)) (lang_id : Int) (lang_prob : ℚ)
    (duration_ms : Int)
    (h : (segs.filterMap id).head? ≠ some "") :
    (make_result ctx segs lang_id lang_prob duration_ms).1.text =
      specJoinSpace (segs.filterMap id) ∧
    (make_result ctx segs lang_id lang_prob duration_ms).2 =
      { ctx with last_result_text :=
          (make_result ctx segs lang_id lang_prob duration_ms).1.text } ∧
    (make_result ctx segs lang_id lang_prob duration_ms).1.segments =
      segs.length :=
  ⟨joinSegments_spec segs h, rfl, rfl⟩

/-- C10 witness: a concrete two-segment result with a null text in the
middle. -/
theorem make_result_join_amended_witness :
    ((([some "hi", none, some "there"] : List (Option String)).filterMap id).head? ≠
      some "") ∧
    (make_result initState [some "hi", none, some "there"] 7 0 5).1.text =
      specJoinSpace
        (([some "hi", none, some "there"] : List (Option String)).filterMap id) :=
  ⟨by decide,
   (make_result_join_amended initState [some "hi", none, some "there"] 7 0 5
     (by decide)).1⟩

/-- C2: from a freshly started streaming session, a sequence of non-empty
pushes whose cumulative sample count stays strictly below the step
threshold triggers no inference call and no callback event, and after
each push (every prefix of the sequence) the accumulator is exactly the
concatenation of the chunks pushed so far. -/
theorem stream_push_below_threshold_accumulates (ctx : BridgeState)
    (chunks : List (List ℚ)) (resp : EngineResponse)
    (hs : ctx.streaming = true) (hstep : ctx.stream_step_samples = 32000)
    (hbuf : ctx.stream_buffer = [])
    (hne : ∀ c ∈ chunks, c ≠ [])
    (hsum : (chunks.map List.length).sum < 32000) :
    ∀ pre suf : List (List ℚ), chunks = pre ++ suf →
      runPushes ctx pre resp =
        ({ ctx with stream_buffer := pre.flatten }, [], 0) := by
  intro pre suf hsplit
  have hpre : ∀ c ∈ pre, c ≠ [] := fun c hc =>
    hne c (by rw [hsplit]; exact List.mem_append_left _ hc)
  have hsum2 : ctx.stream_buffer.length + (pre.map List.length).sum < 32000 := by
    have hle : (pre.map List.length).sum ≤ (chunks.map List.length).sum := by
      rw [hsplit, List.map_append, List.sum_append]
      omega
    rw [hbuf]
    simp only [List.length_nil]
    omega
  have hrun := runPushes_below pre ctx resp hs hstep hpre hsum2
  rw [hrun, hbuf]
  simp

/-- C2 witness: two small pushes on a freshly started session
accumulate without any callback or inference. -/
theorem stream_push_below_threshold_accumulates_witness :
    ({ initState with streaming := true, has_callback := true } : BridgeState).streaming = true ∧
    runPushes { initState with streaming := true, has_callback := true }
        [[(1 : ℚ)], [2, 3]] ⟨0, [], -1, 0⟩ =
      ({ initState with
          streaming := true
          has_callback := true
          stream_buffer := [(1 : ℚ), 2, 3] },
       [], 0) :=
  ⟨rfl,
   stream_push_below_threshold_accumulates
     { initState with streaming := true, has_callback := true }
     [[(1 : ℚ)], [2, 3]] ⟨0, [], -1, 0⟩ rfl (by decide) rfl (by decide)
     (by decide) [[(1 : ℚ)], [2, 3]] [] rfl⟩

/-- C3: a flush whose inference pass fails fires no callback, still
truncates the accumulator to its trailing 8000 samples, reports success
(0), leaves the session streaming, and a later push that again reaches
the threshold issues another inference call. -/
theorem stream_push_flush_failure_recovers (ctx : BridgeState)
    (data : List ℚ) (resp : EngineResponse)
    (hs : ctx.streaming = true) (hstep : ctx.stream_step_samples = 32000)
    (hd : data ≠ [])
    (hcross : 32000 ≤ ctx.stream_buffer.length + data.length)
    (hret : resp.ret ≠ 0) :
    whisper_bridge_stream_push ctx (some data) resp =
      (0,
       { ctx with stream_buffer := (ctx.stream_buffer ++ data).drop (ctx.stream_buffer.length + data.length - 8000) },
       [],
       [⟨{ make_params ctx with singleSegment := true },
         ctx.stream_buffer ++ data⟩]) ∧
    (whisper_bridge_stream_push ctx (some data) resp).2.1.streaming = true ∧
    (whisper_bridge_stream_push ctx (some data) resp).2.1.stream_buffer.length =
      8000 ∧
    (∀ (data2 : List ℚ) (resp2 : EngineResponse), data2 ≠ [] →
      24000 ≤ data2.length →
      (whisper_bridge_stream_push
          (whisper_bridge_stream_push ctx (some data) resp).2.1
          (some data2) resp2).2.2.2.length = 1) := by
  have hflush := stream_push_flush ctx data resp hs hstep hd hcross
  have htuple :
      whisper_bridge_stream_push ctx (some data) resp =
        (0,
         { ctx with stream_buffer := (ctx.stream_buffer ++ data).drop (ctx.stream_buffer.length + data.length - 8000) },
         [],
         [⟨{ make_params ctx with singleSegment := true },
           ctx.stream_buffer ++ data⟩]) := by
    rw [hflush]
    simp [hret]
  have hstate := push_state_eq ctx (some data) resp _ _ _ _ htuple
  have hstrm2 :
      (whisper_bridge_stream_push ctx (some data) resp).2.1.streaming = true := by
    rw [hstate, upd_buf_streaming]
    exact hs
  have h8 :
      (whisper_bridge_stream_push ctx (some data) resp).2.1.stream_buffer.length =
        8000 := by
    rw [hstate, upd_buf_buffer]
    simp only [List.length_drop, List.length_append]
    omega
  refine ⟨htuple, hstrm2, h8, ?_⟩
  intro data2 resp2 hd2 hlen2
  have hstep2 :
      (whisper_bridge_stream_push ctx (some data) resp).2.1.stream_step_samples =
        32000 := by
    rw [hstate, upd_buf_step, hstep]
  have hcross2 :
      32000 ≤
        (whisper_bridge_stream_push ctx (some data) resp).2.1.stream_buffer.length +
          data2.length := by
    rw [h8]
    omega
  have hflush2 := stream_push_flush
    (whisper_bridge_stream_push ctx (some data) resp).2.1 data2 resp2
    hstrm2 hstep2 hd2 hcross2
  have hcalls := push_calls_eq _ _ _ _ _ _ _ hflush2
  rw [hcalls]
  rfl

/-- C3 witness: a failing flush at exactly the threshold keeps the
session streaming with 8000 samples retained. -/
theorem stream_push_flush_failure_recovers_witness :
    (List.replicate 32000 (0 : ℚ) ≠ []) ∧
    ((⟨1, [], -1, 0⟩ : EngineResponse).ret ≠ 0) ∧
    (whisper_bridge_stream_push
        { initState with streaming := true, has_callback := true }
        (some (List.replicate 32000 (0 : ℚ))) ⟨1, [], -1, 0⟩).2.1.streaming =
      true :=
  ⟨by simp only [ne_eq, List.replicate_eq_nil_iff]; decide, by decide,
   (stream_push_flush_failure_recovers
     { initState with streaming := true, has_callback := true }
     (List.replicate 32000 (0 : ℚ)) ⟨1, [], -1, 0⟩ rfl (by decide)
     (by simp only [ne_eq, List.replicate_eq_nil_iff]; decide)
     (by
       have h1 : (List.replicate 32000 (0 : ℚ)).length = 32000 :=
         List.length_replicate _ _
       have h2 :
           ({ initState with streaming := true, has_callback := true } : BridgeState).stream_buffer = [] := rfl
       rw [h1, h2]
       omega) (by decide)).2.1⟩

/-- C1: a push that brings the accumulator to the step threshold runs
exactly one inference pass over the entire current accumulator in
single-segment mode; on success the callback receives every produced
non-null segment text, in segment order, before push returns — exactly
once per segment whenever the engine reports a text for every segment —
and afterwards the accumulator holds exactly its trailing
min(8000, pre-flush length) samples. -/
theorem stream_push_flush_success_spec (ctx : BridgeState) (data : List ℚ)
    (resp : EngineResponse)
    (hs : ctx.streaming = true) (hcb : ctx.has_callback = true)
    (hstep : ctx.stream_step_samples = 32000)
    (hd : data ≠ [])
    (hcross : 32000 ≤ ctx.stream_buffer.length + data.length)
    (hret : resp.ret = 0) :
    whisper_bridge_stream_push ctx (some data) resp =
      (0,
       { ctx with stream_buffer := (ctx.stream_buffer ++ data).drop (ctx.stream_buffer.length + data.length - 8000) },
       resp.segments.filterMap id,
       [⟨{ make_params ctx with singleSegment := true },
         ctx.stream_buffer ++ data⟩]) ∧
    (whisper_bridge_stream_push ctx (some data) resp).2.1.stream_buffer.length =
      min 8000 (ctx.stream_buffer.length + data.length) ∧
    ((∀ s ∈ resp.segments, s.isSome = true) →
      (whisper_bridge_stream_push ctx (some data) resp).2.2.1.length =
        resp.segments.length) := by
  have hflush := stream_push_flush ctx data resp hs hstep hd hcross
  have htuple :
      whisper_bridge_stream_push ctx (some data) resp =
        (0,
         { ctx with stream_buffer := (ctx.stream_buffer ++ data).drop (ctx.stream_buffer.length + data.length - 8000) },
         resp.segments.filterMap id,
         [⟨{ make_params ctx with singleSegment := true },
           ctx.stream_buffer ++ data⟩]) := by
    rw [hflush]
    simp [hret, hcb, callbackEvents_true]
  have hstate := push_state_eq ctx (some data) resp _ _ _ _ htuple
  refine ⟨htuple, ?_, ?_⟩
  · rw [hstate, upd_buf_buffer]
    simp only [List.length_drop, List.length_append]
    omega
  · intro hall
    have hev := push_events_eq _ _ _ _ _ _ _ htuple
    rw [hev]
    exact filterMap_id_length_of_isSome resp.segments hall

/-- C1 witness: a push of exactly 32000 samples on a fresh streaming
session flushes once and the callback fires once for the single produced
segment. -/
theorem stream_push_flush_success_spec_witness :
    (List.replicate 32000 (0 : ℚ) ≠ []) ∧
    32000 ≤
      ({ initState with streaming := true, has_callback := true } : BridgeState).stream_buffer.length +
        (List.replicate 32000 (0 : ℚ)).length ∧
    (whisper_bridge_stream_push
        { initState with streaming := true, has_callback := true }
        (some (List.replicate 32000 (0 : ℚ)))
        ⟨0, [some "hello"], 3, 5⟩).2.2.1.length =
      ([some "hello"] : List (Option String)).length :=
  ⟨by simp only [ne_eq, List.replicate_eq_nil_iff]; decide, by
       have h1 : (List.replicate 32000 (0 : ℚ)).length = 32000 :=
         List.length_replicate _ _
       have h2 :
           ({ initState with streaming := true, has_callback := true } : BridgeState).stream_buffer = [] := rfl
       rw [h1, h2]
       omega,
   (stream_push_flush_success_spec
     { initState with streaming := true, has_callback := true }
     (List.replicate 32000 (0 : ℚ)) ⟨0, [some "hello"], 3, 5⟩ rfl rfl
     (by decide) (by simp only [ne_eq, List.replicate_eq_nil_iff]; decide)
     (by
       have h1 : (List.replicate 32000 (0 : ℚ)).length = 32000 :=
         List.length_replicate _ _
       have h2 :
           ({ initState with streaming := true, has_callback := true } : BridgeState).stream_buffer = [] := rfl
       rw [h1, h2]
       omega) rfl).2.2 (by decide)⟩

/-- C7: for every state reachable by a sequence of start/push/stop
operations from a fresh session: after a further push the accumulator is
either empty or strictly shorter than the step threshold plus that push's
length; a push that reaches the threshold from a streaming state (a
flush) leaves at most overlapRetention = 8000 samples; and after a stop
the accumulator is always empty. -/
theorem reachable_buffer_bounds (ops : List StreamOp) (data : List ℚ)
    (resp resp2 : EngineResponse) (hd : data ≠ []) :
    ((whisper_bridge_stream_push (execOps ops) (some data) resp).2.1.stream_buffer.length = 0 ∨
     (whisper_bridge_stream_push (execOps ops) (some data) resp).2.1.stream_buffer.length <
       32000 + data.length) ∧
    ((execOps ops).streaming = true →
      32000 ≤ (execOps ops).stream_buffer.length + data.length →
      (whisper_bridge_stream_push (execOps ops) (some data) resp).2.1.stream_buffer.length ≤
        8000) ∧
    (whisper_bridge_stream_stop (execOps ops) resp2).2.1.stream_buffer.length = 0 := by
  obtain ⟨hlen, hstep⟩ := execOps_inv ops
  have hb := push_post_bounds (execOps ops) data resp hlen hstep hd
  refine ⟨Or.inr hb.1, hb.2, ?_⟩
  have hclear := (stream_stop_clears (execOps ops) resp2).2.1
  rw [hclear]
  rfl

/-- C7 witness: the bounds evaluated right after a start. -/
theorem reachable_buffer_bounds_witness :
    ([(1 : ℚ)] ≠ []) ∧
    (whisper_bridge_stream_stop (execOps [StreamOp.start true])
        ⟨0, [], -1, 0⟩).2.1.stream_buffer.length = 0 :=
  ⟨by decide,
   (reachable_buffer_bounds [StreamOp.start true] [(1 : ℚ)] ⟨0, [], -1, 0⟩
     ⟨0, [], -1, 0⟩ (by decide)).2.2⟩

end WhisperBridge
